import Mathlib

set_option maxRecDepth 4000

/-!
Verification of the extraction-normalization / confidence-classification /
reviewer-assignment / status-aggregation pipeline of `process_docs.py`.

The Python source is shallowly embedded: pandas DataFrames become lists of
records, Cosmos DB containers become association lists keyed by the record
`id` with upsert semantics, blob-store writes become accumulated lists of
(blob name, payload) pairs, and Python floats are modelled as rationals.
Timestamp fields (`updatedAt`, `lastUpdatedAt`) are omitted: no claim
mentions them.  Python exceptions (the crop branch can raise a `TypeError`
on a missing bounding box and a `ValueError` on a too-short one) are
modelled as an explicit error channel that aborts the remainder of the
per-table loop, mirroring the `try/except` in `process_document`.
-/

namespace ConsOCR

/-! ### Provider result shapes

These mirror the `azure.ai.formrecognizer` objects actually read by
`process_docs.py`: pages carry words (text and confidence), tables carry
cells (row/column index, content, spans, bounding regions).  A bounding
region carries a page number and a polygon; `extract_tables_from_result`
only ever reads the polygon, never the page number. -/

structure Word where
  content : String
  confidence : ℚ
deriving DecidableEq

structure Page where
  words : List Word
deriving DecidableEq

structure BoundingRegion where
  pageNumber : Nat
  polygon : List (ℚ × ℚ)
deriving DecidableEq

structure TableCell where
  row_index : Nat
  column_index : Nat
  content : String
  row_span : Nat
  column_span : Nat
  bounding_regions : List BoundingRegion
deriving DecidableEq

structure Table where
  cells : List TableCell
deriving DecidableEq

structure AnalysisResult where
  pages : List Page
  tables : List Table
deriving DecidableEq

/-! ### String helpers -/

/-- Case-insensitive substring test on character lists; `needle.isPrefixOf`
checked at every suffix of the haystack.  Embeds both Python's
`str.contains(re.escape(w), case=False)` (the pattern is escaped, so the
regex search degenerates to a substring test) and `needle in text`. -/
def listContainsSub (needle : List Char) : List Char → Bool
  | [] => needle.isEmpty
  | c :: rest => needle.isPrefixOf (c :: rest) || listContainsSub needle rest

/-- `containsCI hay needle`: is `needle` a case-insensitive substring of `hay`? -/
def containsCI (hay needle : String) : Bool :=
  listContainsSub (needle.data.map Char.toLower) (hay.data.map Char.toLower)

/-- Embeds `re.sub(r"[^0-9]", "", str(content))`: keep only the decimal
digits of a string. -/
def cleanedOf (s : String) : String :=
  ⟨s.data.filter (fun c => c.isDigit)⟩

/-! ### Normalized cell rows (`extract_tables_from_result`)

One record per table cell, as built by `extract_tables_from_result`.
`Confidence` is an `Option` because `process_table_cells` defends against a
missing `Confidence` column with `row.get("Confidence", 0.0)`. -/

structure CellRow where
  Table : Nat
  Row : Nat
  Column : Nat
  Content : String
  RowSpan : Nat
  ColumnSpan : Nat
  Confidence : Option ℚ
  CleanedContent : String
  BoundingBox : Option (List ℚ)
deriving DecidableEq

/-- Embeds the bounding-box extraction: `bb` is set only when the cell has a
bounding region with a non-empty polygon, and is the flat list of all x
coordinates followed by all y coordinates
(`[p.x for p in poly] + [p.y for p in poly]`). -/
def bbOf (cell : TableCell) : Option (List ℚ) :=
  match cell.bounding_regions with
  | [] => none
  | r :: _ =>
    if r.polygon.isEmpty then none
    else some (r.polygon.map Prod.fst ++ r.polygon.map Prod.snd)

/-- Embeds the row-building loop of `extract_tables_from_result`: one record
per cell of every table, `Table` numbered from 1 in table order, default
`Confidence` 1.0. -/
def mkRows (tables : List Table) : List CellRow :=
  tables.enum.flatMap (fun p =>
    p.2.cells.map (fun cell =>
      { Table := p.1 + 1
        Row := cell.row_index
        Column := cell.column_index
        Content := cell.content
        RowSpan := cell.row_span
        ColumnSpan := cell.column_span
        Confidence := some 1
        CleanedContent := cleanedOf cell.content
        BoundingBox := bbOf cell }))

/-- One step of the word-confidence pass on a single row: if the word's text
is a case-insensitive substring of the row's content, overwrite the row's
confidence with the word's confidence. -/
def cellStep (r : CellRow) (w : Word) : CellRow :=
  if containsCI r.Content w.content then { r with Confidence := some w.confidence } else r

/-- Embeds `df.loc[mask, "Confidence"] = df.loc[mask, "Confidence"] * 0 + w.confidence`:
apply one word to every row of the frame. -/
def applyWord (rows : List CellRow) (w : Word) : List CellRow :=
  rows.map (fun r => cellStep r w)

/-- Embeds `extract_tables_from_result`: build one row per table cell, then
for every page and every word on it overwrite the confidence of each row
whose content contains the word (case-insensitively); an empty row list is
returned as-is. -/
def extract_tables_from_result (result : AnalysisResult) : List CellRow :=
  let rows := mkRows result.tables
  if rows.isEmpty then []
  else result.pages.foldl (fun rs pg => pg.words.foldl applyWord rs) rows

/-- All words of the result in page order then word order — the iteration
order of the nested confidence loop. -/
def allWords (result : AnalysisResult) : List Word :=
  result.pages.flatMap (fun pg => pg.words)

/-! ### Cell classification and persistence (`process_table_cells`)

`CONF_THRESHOLD = 0.90`; a cell is `needs_review` when its confidence is
strictly below the threshold. -/

def CONF_THRESHOLD : ℚ := 9 / 10

/-- Embeds Python's `int()` truncation toward zero on a rational. -/
def pyInt (q : ℚ) : ℤ :=
  if 0 ≤ q then q.floor else q.ceil

/-- `bb[::2]`: the elements of a list at even positions. -/
def everyOther : List ℚ → List ℚ
  | [] => []
  | [a] => [a]
  | a :: _ :: t => a :: everyOther t

/-- `min(l)` over a non-empty list (the empty case is guarded at the call
site, where Python would raise `ValueError`). -/
def listMin : List ℚ → ℚ
  | [] => 0
  | a :: t => t.foldl min a

/-- `max(l)` over a non-empty list. -/
def listMax : List ℚ → ℚ
  | [] => 0
  | a :: t => t.foldl max a

/-- Embeds the crop-rectangle computation of `process_table_cells`:
`xs, ys = bb[::2], bb[1::2]`, take `int(min/max * width/height)` and expand
by a 2-pixel margin; returned as `(left, top, right, bottom)`.  Note that
the source applies no clamping to the image bounds before `page_img.crop`. -/
def cropRect (bb : List ℚ) (w h : Nat) : ℤ × ℤ × ℤ × ℤ :=
  let xs := everyOther bb
  let ys := everyOther (bb.drop 1)
  (pyInt (listMin xs * w) - 2, pyInt (listMin ys * h) - 2,
   pyInt (listMax xs * w) + 2, pyInt (listMax ys * h) + 2)

/-- The blob key of a cell crop:
`pages/{doc_id}/crops/page_{page_number}_{row}_{col}.jpg`. -/
def cropBlobName (docId : String) (pageNo r c : Nat) : String :=
  s!"pages/{docId}/crops/page_{pageNo}_{r}_{c}.jpg"

/-- The deterministic cell-record id:
`{doc_id}_page{page_number}_tbl{table_idx}_row{row}_col{col}`. -/
def cellId (docId : String) (pageNo tblIdx r c : Nat) : String :=
  s!"{docId}_page{pageNo}_tbl{tblIdx}_row{r}_col{c}"

/-- The persisted `table_cells` record, field for field as written by
`process_table_cells` (minus the `updatedAt` timestamp). -/
structure CellItem where
  id : String
  assignedTo : Option String
  documentId : String
  pageNumber : Nat
  tableId : Nat
  row : Nat
  column : Nat
  content : String
  originalContent : String
  cleanedContent : String
  confidence : ℚ
  status : String
  blobName : Option String
  reviewerId : Option String
  reviewedAt : Option String
deriving DecidableEq

/-- The per-call context of `process_table_cells`: the reviewer pool
(`REVIEWERS`), the document id, page number and table index arguments, and
the page raster (`None` when the page JPEG could not be loaded, modelled as
its pixel width and height otherwise). -/
structure Ctx where
  pool : List String
  docId : String
  pageNo : Nat
  tblIdx : Nat
  img : Option (Nat × Nat)
deriving DecidableEq

/-- One iteration of the cell loop of `process_table_cells` for a single
row, given the current `pending_counter`: classification against
`CONF_THRESHOLD` (a missing `Confidence` defaults to 0.0), the crop branch
for `needs_review` cells when a page image is available, reviewer selection
from the pool, and the record to upsert.  The crop branch raises when the
row's `BoundingBox` is `None` (`TypeError` on `bb[::2]`) or has fewer than
two coordinates (`ValueError` on `min` of an empty sequence); this is the
error channel. -/
def mkCellItem (ctx : Ctx) (row : CellRow) (counter : Nat) :
    Except String (CellItem × Option (String × (ℤ × ℤ × ℤ × ℤ))) :=
  match
    (match ctx.img with
     | none => Except.ok none
     | some (w, h) =>
       if row.Confidence.getD 0 < CONF_THRESHOLD then
         match row.BoundingBox with
         | none => Except.error "TypeError"
         | some bb =>
           if bb.length < 2 then Except.error "ValueError"
           else Except.ok
             (some (cropBlobName ctx.docId ctx.pageNo row.Row row.Column, cropRect bb w h))
       else Except.ok none)
  with
  | .error e => .error e
  | .ok crop =>
    .ok ({ id := cellId ctx.docId ctx.pageNo ctx.tblIdx row.Row row.Column
           assignedTo :=
             if row.Confidence.getD 0 < CONF_THRESHOLD then
               if ctx.pool = [] then none else ctx.pool.get? (counter % ctx.pool.length)
             else none
           documentId := ctx.docId
           pageNumber := ctx.pageNo
           tableId := ctx.tblIdx
           row := row.Row
           column := row.Column
           content := row.Content
           originalContent := row.Content
           cleanedContent := row.CleanedContent
           confidence := row.Confidence.getD 0
           status :=
             if row.Confidence.getD 0 < CONF_THRESHOLD then "needs_review" else "approved"
           blobName := crop.map Prod.fst
           reviewerId := none
           reviewedAt := none }, crop)

/-- The crop upload `mkCellItem` performs on its non-raising path, as a
total function (used to state lemmas about successful iterations). -/
def cropOf (ctx : Ctx) (row : CellRow) : Option (String × (ℤ × ℤ × ℤ × ℤ)) :=
  match ctx.img with
  | none => none
  | some (w, h) =>
    if row.Confidence.getD 0 < CONF_THRESHOLD then
      match row.BoundingBox with
      | none => none
      | some bb =>
        if bb.length < 2 then none
        else some (cropBlobName ctx.docId ctx.pageNo row.Row row.Column, cropRect bb w h)
    else none

/-- The record `mkCellItem` produces on its non-raising path, as a total
function (used to state lemmas about successful iterations). -/
def itemOf (ctx : Ctx) (row : CellRow) (counter : Nat) : CellItem :=
  { id := cellId ctx.docId ctx.pageNo ctx.tblIdx row.Row row.Column
    assignedTo :=
      if row.Confidence.getD 0 < CONF_THRESHOLD then
        if ctx.pool = [] then none else ctx.pool.get? (counter % ctx.pool.length)
      else none
    documentId := ctx.docId
    pageNumber := ctx.pageNo
    tableId := ctx.tblIdx
    row := row.Row
    column := row.Column
    content := row.Content
    originalContent := row.Content
    cleanedContent := row.CleanedContent
    confidence := row.Confidence.getD 0
    status :=
      if row.Confidence.getD 0 < CONF_THRESHOLD then "needs_review" else "approved"
    blobName := (cropOf ctx row).map Prod.fst
    reviewerId := none
    reviewedAt := none }

/-- Result of the per-cell loop: the records upserted (in row order), the
crop blobs uploaded (blob name and cropped rectangle, in row order), and
the pending exception, if the loop aborted. -/
structure CellsOut where
  items : List CellItem
  crops : List (String × (ℤ × ℤ × ℤ × ℤ))
  err : Option String
deriving DecidableEq

/-- Embeds the `for _, row in table_df.iterrows()` loop of
`process_table_cells`, threading `pending_counter` (starts at 0 per call,
incremented only for `needs_review` cells).  A raising iteration keeps the
records already upserted and aborts the rest. -/
def runCells (ctx : Ctx) : List CellRow → Nat → CellsOut
  | [], _ => ⟨[], [], none⟩
  | row :: rest, counter =>
    match mkCellItem ctx row counter with
    | .error e => ⟨[], [], some e⟩
    | .ok (item, crop) =>
      let out := runCells ctx rest
        (if row.Confidence.getD 0 < CONF_THRESHOLD then counter + 1 else counter)
      ⟨item :: out.items, crop.elim out.crops (fun cw => cw :: out.crops), out.err⟩

/-! ### The `table_cells` container and the document record -/

/-- Cosmos `upsert_item`: replace the record with the same `id` if present,
append otherwise. -/
def upsertItem (store : List CellItem) (item : CellItem) : List CellItem :=
  if store.any (fun x => x.id = item.id) then
    store.map (fun x => if x.id = item.id then item else x)
  else store ++ [item]

/-- First-occurrence deduplication, the order `pandas.unique` and the
Cosmos `DISTINCT` query are modelled with. -/
def firstUnique {α : Type} [DecidableEq α] (l : List α) : List α :=
  l.foldl (fun acc a => if a ∈ acc then acc else acc ++ [a]) []

/-- The document-metadata record, restricted to the fields the pipeline
writes (timestamps omitted).  Counter fields are `Option` because a fresh
document has none of them set. -/
structure DocState where
  status : String
  tableCount : Option Nat := none
  totalCells : Option Nat := none
  approvedCells : Option Nat := none
  reviewedCells : Option Nat := none
  pendingCells : Option Nat := none
  reviewerId : Option String := none
  assignedReviewers : Option (List String) := none
  errorMessage : Option String := none
deriving DecidableEq

/-- A freshly uploaded document. -/
def initialDoc : DocState := { status := "queued" }

/-- Result of one `process_table_cells` call: the updated `table_cells`
store, the updated document record, the pending exception (if the cell
loop raised), and the returned `(total_cells, auto_approved_cells)`. -/
structure TableOut where
  store : List CellItem
  doc : DocState
  err : Option String
  total : Nat
  approved : Nat
deriving DecidableEq

/-- Embeds `process_table_cells(doc_id, table_df, page_number, table_idx)`:
run the cell loop (upserting each record), then — when no exception was
raised — recompute the document-level status and counters from this one
table: status `ready_for_export` iff every cell of the table was
auto-approved, else `ready_for_review`; a document-level reviewer chosen as
`REVIEWERS[document_count % POOL_LEN]`; `totalCells`, `approvedCells`,
`reviewedCells`, `pendingCells` and the distinct non-null `assignedTo`
values of the document's cells.  (The source issues two
`update_document_status` calls; their composition is modelled.)  On an
exception the document record is left untouched and the exception
propagates to the caller. -/
def process_table_cells (ctx : Ctx) (docCount : Nat) (df : List CellRow)
    (store : List CellItem) (doc : DocState) : TableOut :=
  let out := runCells ctx df 0
  let newStore := out.items.foldl upsertItem store
  match out.err with
  | some e => ⟨newStore, doc, some e, 0, 0⟩
  | none =>
    let total := out.items.length
    let approved := (out.items.filter (fun it => it.status = "approved")).length
    let docStatus := if approved = total then "ready_for_export" else "ready_for_review"
    let assignedReviewer :=
      if ctx.pool = [] then none else ctx.pool.get? (docCount % ctx.pool.length)
    let reviewers := firstUnique
      ((newStore.filter (fun c => c.documentId = ctx.docId ∧ c.assignedTo ≠ none)).filterMap
        (fun c => c.assignedTo))
    ⟨newStore,
     { doc with
        status := docStatus
        reviewerId := assignedReviewer
        totalCells := some total
        approvedCells := some approved
        reviewedCells := some approved
        pendingCells := some (total - approved)
        assignedReviewers := some reviewers },
     none, total, approved⟩

/-! ### The pipeline driver (`process_document`) -/

/-- Process-wide inputs of `process_document`: the reviewer pool, the
document count read for the document-level round robin, the loadable page
rasters by page number, and the document id. -/
structure PipeCtx where
  pool : List String
  docCount : Nat
  pageImgs : Nat → Option (Nat × Nat)
  docId : String

/-- The `for table_idx in all_tables_df['Table'].unique()` loop of
`process_document`: process each table's slice of the page's rows; an
exception aborts the loop and propagates. -/
def processTables (pc : PipeCtx) (pageNum : Nat) (allTables : List CellRow) :
    List Nat → List CellItem → DocState → List CellItem × DocState × Option String
  | [], store, doc => (store, doc, none)
  | tIdx :: rest, store, doc =>
    let df := allTables.filter (fun r => r.Table = tIdx)
    let ctx : Ctx := ⟨pc.pool, pc.docId, pageNum, tIdx, pc.pageImgs pageNum⟩
    let out := process_table_cells ctx pc.docCount df store doc
    match out.err with
    | some e => (out.store, out.doc, some e)
    | none => processTables pc pageNum allTables rest out.store out.doc

/-- The per-page loop of `process_document`: pages whose result has no
tables are skipped; otherwise the page's result is normalized and every
table index processed. -/
def processPages (pc : PipeCtx) :
    List (Nat × AnalysisResult) → List CellItem → DocState →
    List CellItem × DocState × Option String
  | [], store, doc => (store, doc, none)
  | (pageNum, result) :: rest, store, doc =>
    if result.tables.isEmpty then processPages pc rest store doc
    else
      let allTables := extract_tables_from_result result
      let tids := firstUnique (allTables.map (fun r => r.Table))
      match processTables pc pageNum allTables tids store doc with
      | (newStore, newDoc, some e) => (newStore, newDoc, some e)
      | (newStore, newDoc, none) => processPages pc rest newStore newDoc

/-- The tail of `process_document`: on the success path the final
`update_document_status(doc_id, "ready_for_review")` is issued with no
counter kwargs; when an exception surfaced, the `except` handler sets
status `error` with the message instead. -/
def finalizeDoc (res : List CellItem × DocState × Option String) :
    List CellItem × DocState :=
  match res with
  | (newStore, newDoc, none) => (newStore, { newDoc with status := "ready_for_review" })
  | (newStore, newDoc, some e) =>
    (newStore, { newDoc with status := "error", errorMessage := some e })

/-- Embeds `process_document` from the point the provider results are in
hand (the provider call itself is an external collaborator): set status
`processing` with the table count, run every page, then finalize. -/
def process_document (pc : PipeCtx) (pageResults : List AnalysisResult)
    (store : List CellItem) (doc : DocState) : List CellItem × DocState :=
  finalizeDoc (processPages pc (pageResults.enum.map (fun p => (p.1 + 1, p.2))) store
    { doc with
        status := "processing"
        tableCount := some ((pageResults.map (fun r => r.tables.length)).sum) })

/-! ### Pair extraction (`find_pd_seq_pairs`) -/

/-- A `pd_seq_pairs` record (minus the id/document fields added by
`save_pairs_to_cosmos`). -/
structure Pair where
  FULL_PD : String
  SEQUENCE_NUMBER : String
  FULL_PD_cleaned : String
  SEQUENCE_NUMBER_cleaned : String
  ED_CODE : Nat
deriving DecidableEq

/-- The header scan of `find_pd_seq_pairs` over the row-0 cells: for each
header cell, if its lowercased content contains `"pd no"` or `"pd"` record
its column as the PD column, `elif` it contains `"seq"` record its column
as the sequence column (so a cell containing both counts only as PD, and
later header cells overwrite earlier ones). -/
def headerCols (headers : List CellRow) : Option Nat × Option Nat :=
  headers.foldl
    (fun acc h =>
      if containsCI h.Content "pd no" || containsCI h.Content "pd" then (some h.Column, acc.2)
      else if containsCI h.Content "seq" then (acc.1, some h.Column)
      else acc)
    (none, none)

/-- Embeds `pd_cells["Content"].iloc[0]` with its enclosing default: the
content of the first cell of `dataRows` at the given row and column, or the
empty string when no such cell exists. -/
def firstCellValue (dataRows : List CellRow) (rowIdx col : Nat) : String :=
  ((dataRows.filter (fun r => r.Row = rowIdx ∧ r.Column = col)).head?).elim
    "" (fun r => r.Content)

/-- Embeds `find_pd_seq_pairs(table_df)`: scan the row-0 headers for the PD
and sequence columns; if both were found, for each distinct data-row index
(row > 0, in first-occurrence order) take the first cell content in the PD
column and in the sequence column (empty string when absent) and emit a
pair when at least one of the two is non-empty; otherwise return no
pairs. -/
def find_pd_seq_pairs (table_df : List CellRow) : List Pair :=
  if table_df.isEmpty then []
  else
    match headerCols (table_df.filter (fun r => r.Row = 0)) with
    | (some pdCol, some seqCol) =>
      (firstUnique ((table_df.filter (fun r => 0 < r.Row)).map (fun r => r.Row))).foldl
        (fun pairs rowIdx =>
          if firstCellValue (table_df.filter (fun r => 0 < r.Row)) rowIdx pdCol ≠ "" ∨
             firstCellValue (table_df.filter (fun r => 0 < r.Row)) rowIdx seqCol ≠ "" then
            pairs ++
              [{ FULL_PD := firstCellValue (table_df.filter (fun r => 0 < r.Row)) rowIdx pdCol
                 SEQUENCE_NUMBER :=
                   firstCellValue (table_df.filter (fun r => 0 < r.Row)) rowIdx seqCol
                 FULL_PD_cleaned :=
                   cleanedOf (firstCellValue (table_df.filter (fun r => 0 < r.Row)) rowIdx pdCol)
                 SEQUENCE_NUMBER_cleaned :=
                   cleanedOf (firstCellValue (table_df.filter (fun r => 0 < r.Row)) rowIdx seqCol)
                 ED_CODE := 35023 }]
          else pairs)
        []
    | _ => []

/-! ### Concrete inputs used by witnesses and counterexamples -/

/-- A normalized cell row with the given position, content and confidence
(spans 1, cleaned content derived from the content). -/
def sampleRow (t r c : Nat) (content : String) (conf : Option ℚ)
    (bb : Option (List ℚ)) : CellRow :=
  { Table := t, Row := r, Column := c, Content := content, RowSpan := 1,
    ColumnSpan := 1, Confidence := conf, CleanedContent := cleanedOf content,
    BoundingBox := bb }

/-- One-page result: two words, one table cell whose content contains both
word texts case-insensitively. -/
def res7 : AnalysisResult :=
  { pages := [⟨[⟨"ab", 1/2⟩, ⟨"b", 1/4⟩]⟩],
    tables := [⟨[⟨0, 0, "AB", 1, 1, []⟩]⟩] }

/-- A one-page result whose only table cell carries a bounding region
referencing page number 5 — out of range of the single page. -/
def badResult : AnalysisResult :=
  { pages := [⟨[]⟩],
    tables := [⟨[⟨0, 0, "x7", 1, 1, [⟨5, [(0, 0)]⟩]⟩]⟩] }

def wctx1 : Ctx := ⟨["A"], "doc", 1, 1, none⟩

def wrow1 : CellRow := sampleRow 1 0 0 "ok" (some 1) none

def wctx3 : Ctx := ⟨[], "doc", 1, 1, none⟩

def wdf3 : List CellRow :=
  [sampleRow 1 0 0 "a" (some 1) none, sampleRow 1 0 1 "b" (some 0) none]

def ctx4ce : Ctx := ⟨[], "doc", 1, 1, none⟩

def row4ce : CellRow := sampleRow 1 0 0 "x" (some (1/2)) none

def wctx4 : Ctx := ⟨["A"], "doc", 1, 1, none⟩

def wrow4 : CellRow := sampleRow 1 0 0 "x" (some (1/2)) none

def ctx5ce : Ctx := ⟨[], "d", 1, 1, some (100, 100)⟩

/-- A low-confidence cell whose polygon is the full page: the four corners
of the unit square, flattened as all x values then all y values. -/
def row5ce : CellRow := sampleRow 1 2 3 "z" (some 0) (some [0, 1, 1, 0, 0, 0, 1, 1])

def wbb5 : List ℚ := [0, 1, 1, 0, 0, 0, 1, 1]

def wctx9 : Ctx := ⟨["A", "B"], "d", 1, 1, none⟩

def wdf9 : List CellRow :=
  [sampleRow 1 1 0 "z" (some 0) none, sampleRow 1 2 0 "z" (some 0) none,
   sampleRow 1 3 0 "z" (some 0) none]

def wctx10 : Ctx := ⟨[], "d", 1, 1, none⟩

def wrow10 : CellRow := sampleRow 1 0 0 "z" none none

/-- One page with no words (so every cell keeps the default confidence 1.0)
and two tables: one cell in the first, two in the second. -/
def res2 : AnalysisResult :=
  { pages := [⟨[]⟩],
    tables := [⟨[⟨0, 0, "a", 1, 1, []⟩]⟩,
               ⟨[⟨0, 0, "b", 1, 1, []⟩, ⟨0, 1, "c", 1, 1, []⟩]⟩] }

def pc2 : PipeCtx := ⟨[], 0, fun _ => none, "doc1"⟩

def wctx2 : Ctx := ⟨[], "doc", 1, 1, none⟩

def wdf2 : List CellRow := [sampleRow 1 0 0 "a" (some 1) none]

/-- A table whose single header cell contains both "pd" and "seq", with a
non-empty value in its column on data row 1. -/
def ce8df : List CellRow :=
  [sampleRow 1 0 0 "PD Seq" (some 1) none, sampleRow 1 1 0 "123" (some 1) none]

/-- The table of spec §8: header row `["PD No.", "Seq."]`, one data row
`["12a3", "45"]`. -/
def wdf8 : List CellRow :=
  [sampleRow 1 0 0 "PD No." (some 1) none, sampleRow 1 0 1 "Seq." (some 1) none,
   sampleRow 1 1 0 "12a3" (some 1) none, sampleRow 1 1 1 "45" (some 1) none]

/-! ## Theorems -/

/-! ### Generic list lemmas -/

theorem head?_filter {α : Type} (p : α → Bool) :
    ∀ l : List α, (l.filter p).head? = l.find? p := by
  intro l
  induction l with
  | nil => rfl
  | cons a t ih =>
    by_cases h : p a
    · simp [List.filter_cons, List.find?, h]
    · simp only [List.filter_cons, List.find?, h]
      simp only [Bool.false_eq_true, if_false]
      exact ih

theorem getLast?_cons_elim {α β : Type} (y : α) (ys : List α) (a b : β) (f : α → β) :
    (y :: ys).getLast?.elim a f = (y :: ys).getLast?.elim b f := by
  induction ys generalizing y with
  | nil => rfl
  | cons z zs ih => rw [List.getLast?_cons_cons]; exact ih z

theorem cons_getLast?_elim {α β : Type} (x : α) (l : List α) (a : β) (f : α → β) :
    (x :: l).getLast?.elim a f = l.getLast?.elim (f x) f := by
  cases l with
  | nil => rfl
  | cons y ys => rw [List.getLast?_cons_cons]; exact getLast?_cons_elim y ys a (f x) f

theorem foldl_last_update {α β : Type} (p : α → Bool) (g : α → β) :
    ∀ (l : List α) (a : Option β),
      l.foldl (fun acc x => if p x then some (g x) else acc) a =
        ((l.filter p).getLast?).elim a (fun x => some (g x)) := by
  intro l
  induction l with
  | nil => intro a; rfl
  | cons x t ih =>
    intro a
    by_cases h : p x
    · rw [List.foldl_cons, if_pos h, ih, List.filter_cons, if_pos h,
        cons_getLast?_elim]
    · rw [List.foldl_cons, if_neg h, ih, List.filter_cons, if_neg h]

/-! ### Lemmas about the normalizer -/

theorem length_mkRows (tables : List Table) :
    (mkRows tables).length = (tables.map (fun t => t.cells.length)).sum := by
  unfold mkRows
  rw [List.length_flatMap]
  congr 1
  have h2 : ∀ (l : List (Nat × Table)),
      l.map (List.length ∘ fun p => p.2.cells.map (fun cell =>
        ({ Table := p.1 + 1, Row := cell.row_index, Column := cell.column_index,
           Content := cell.content, RowSpan := cell.row_span,
           ColumnSpan := cell.column_span, Confidence := some 1,
           CleanedContent := cleanedOf cell.content,
           BoundingBox := bbOf cell } : CellRow))) =
      l.map (fun p => p.2.cells.length) := by
    intro l
    apply List.map_congr_left
    intro p _
    simp
  rw [h2]
  have h3 : (fun p : Nat × Table => p.2.cells.length) =
      (fun t : Table => t.cells.length) ∘ Prod.snd := rfl
  rw [h3, ← List.map_map, List.enum_map_snd]

theorem length_applyWord (rows : List CellRow) (w : Word) :
    (applyWord rows w).length = rows.length :=
  List.length_map _ _

theorem length_foldl_applyWord (ws : List Word) :
    ∀ rows : List CellRow, (ws.foldl applyWord rows).length = rows.length := by
  induction ws with
  | nil => intro rows; rfl
  | cons w t ih => intro rows; rw [List.foldl_cons, ih, length_applyWord]

theorem length_pages_fold (pages : List Page) :
    ∀ rows : List CellRow,
      (pages.foldl (fun rs pg => pg.words.foldl applyWord rs) rows).length = rows.length := by
  induction pages with
  | nil => intro rows; rfl
  | cons pg t ih => intro rows; rw [List.foldl_cons, ih, length_foldl_applyWord]

theorem pages_fold_eq_allWords (result : AnalysisResult) (rows : List CellRow) :
    result.pages.foldl (fun rs pg => pg.words.foldl applyWord rs) rows =
      (allWords result).foldl applyWord rows := by
  show result.pages.foldl _ rows = (result.pages.flatMap (fun pg => pg.words)).foldl _ rows
  induction result.pages generalizing rows with
  | nil => rfl
  | cons pg t ih => rw [List.foldl_cons, List.flatMap_cons, List.foldl_append, ih]

theorem foldl_applyWord_map (ws : List Word) :
    ∀ rows : List CellRow,
      ws.foldl applyWord rows = rows.map (fun r => ws.foldl cellStep r) := by
  induction ws with
  | nil => intro rows; simp
  | cons w t ih =>
    intro rows
    rw [List.foldl_cons, ih]
    unfold applyWord
    rw [List.map_map]
    rfl

theorem cellStep_Content (r : CellRow) (w : Word) : (cellStep r w).Content = r.Content := by
  unfold cellStep; split <;> rfl

theorem foldl_cellStep_Content (ws : List Word) :
    ∀ r : CellRow, (ws.foldl cellStep r).Content = r.Content := by
  induction ws with
  | nil => intro r; rfl
  | cons w t ih => intro r; rw [List.foldl_cons, ih, cellStep_Content]

theorem foldl_cellStep_Confidence (ws : List Word) :
    ∀ (r : CellRow) (s : String), r.Content = s →
      (ws.foldl cellStep r).Confidence =
        ((ws.filter (fun w => containsCI s w.content)).getLast?).elim
          r.Confidence (fun w => some w.confidence) := by
  induction ws with
  | nil => intro r s _; rfl
  | cons w t ih =>
    intro r s hs
    rw [List.foldl_cons]
    by_cases h : containsCI s w.content
    · have hc : containsCI r.Content w.content = true := by rw [hs]; exact h
      have hstep : cellStep r w = { r with Confidence := some w.confidence } := by
        unfold cellStep; rw [if_pos hc]
      rw [hstep, ih { r with Confidence := some w.confidence } s hs]
      simp only [List.filter_cons]
      rw [if_pos h, cons_getLast?_elim]
    · have hc : ¬(containsCI r.Content w.content = true) := by rw [hs]; exact h
      have hstep : cellStep r w = r := by unfold cellStep; rw [if_neg hc]
      rw [hstep, ih r s hs]
      simp only [List.filter_cons]
      rw [if_neg h]

theorem mem_mkRows_Confidence {tables : List Table} {r : CellRow}
    (h : r ∈ mkRows tables) : r.Confidence = some 1 := by
  unfold mkRows at h
  rw [List.mem_flatMap] at h
  obtain ⟨p, -, hr⟩ := h
  rw [List.mem_map] at hr
  obtain ⟨cell, -, hr⟩ := hr
  rw [← hr]

/-- Claim C6 (amended): the normalizer is a pure total transformation that
never fails: whatever page numbers the tables' bounding regions reference,
it returns exactly one normalized row per table cell.  (The unamended
claim's `MalformedResult` failure does not exist in the code; see the
counterexample.) -/
theorem claim_C6 (result : AnalysisResult) :
    (extract_tables_from_result result).length =
      (result.tables.map (fun t => t.cells.length)).sum := by
  unfold extract_tables_from_result
  by_cases h : (mkRows result.tables).isEmpty
  · rw [if_pos h]
    have : (mkRows result.tables).length = 0 := by
      rcases hm : mkRows result.tables with _ | ⟨a, t⟩
      · rfl
      · rw [hm] at h; simp [List.isEmpty] at h
    rw [← length_mkRows, this]
    rfl
  · rw [if_neg h, length_pages_fold, length_mkRows]

/-- Claim C6 counterexample: a result whose only table cell carries a
bounding region referencing page index 5, while the result has a single
page; the claimed `MalformedResult` failure does not happen — the
normalizer silently returns the ordinary normalized row. -/
theorem claim_C6_counterexample :
    (badResult.tables.map (fun t => t.cells.map
        (fun c => c.bounding_regions.map (fun r => r.pageNumber)))) = [[[5]]] ∧
    badResult.pages.length = 1 ∧
    extract_tables_from_result badResult =
      [{ Table := 1, Row := 0, Column := 0, Content := "x7", RowSpan := 1,
         ColumnSpan := 1, Confidence := some 1, CleanedContent := "7",
         BoundingBox := some [0, 0] }] := by
  refine ⟨rfl, rfl, ?_⟩
  with_unfolding_all decide

/-- Claim C7: each normalized cell's confidence starts at the default 1.0
and is overwritten by the confidence of every word (in page order, then
word order) whose text is a case-insensitive substring of the cell's
content — so the last matching word wins, and 1.0 survives when no word
matches. -/
theorem claim_C7 (result : AnalysisResult) (i : Nat)
    (h : i < (extract_tables_from_result result).length) :
    (extract_tables_from_result result)[i].Confidence =
      some ((((allWords result).filter
          (fun w => containsCI (extract_tables_from_result result)[i].Content w.content)).getLast?).elim
        1 (fun w => w.confidence)) := by
  have hne : ¬((mkRows result.tables).isEmpty = true) := by
    intro hemp
    have h2 := h
    rw [extract_tables_from_result, if_pos hemp] at h2
    exact absurd h2 (by simp)
  have hrw : extract_tables_from_result result =
      (mkRows result.tables).map (fun r => (allWords result).foldl cellStep r) := by
    rw [extract_tables_from_result, if_neg hne, pages_fold_eq_allWords,
      foldl_applyWord_map]
  have hlen : i < (mkRows result.tables).length := by
    have h2 := h
    rw [hrw, List.length_map] at h2
    exact h2
  simp only [hrw, List.getElem_map]
  rw [foldl_cellStep_Content (allWords result)]
  rw [foldl_cellStep_Confidence (allWords result) ((mkRows result.tables)[i])
    ((mkRows result.tables)[i].Content) rfl]
  rw [mem_mkRows_Confidence (List.getElem_mem hlen)]
  rcases hgl : ((mkRows result.tables)[i].Content |> fun s =>
      (allWords result).filter (fun w => containsCI s w.content)).getLast? with _ | w
  · rw [hgl]; rfl
  · rw [hgl]; rfl

/-- Witness for claim C7 at `res7`: the cell content "AB" matches both
words "ab" (confidence 1/2) and "b" (confidence 1/4); the last match
wins. -/
theorem claim_C7_witness :
    ((extract_tables_from_result res7).get ⟨0, by with_unfolding_all decide⟩).Confidence =
      some (1/4) := by
  have h := claim_C7 res7 0 (by with_unfolding_all decide)
  exact h.trans (by with_unfolding_all decide)

/-! ### Lemmas about the cell loop -/

theorem mkCellItem_cases (ctx : Ctx) (row : CellRow) (c : Nat) :
    mkCellItem ctx row c = .ok (itemOf ctx row c, cropOf ctx row) ∨
    ∃ e, mkCellItem ctx row c = .error e := by
  cases himg : ctx.img with
  | none => left; simp [mkCellItem, itemOf, cropOf, himg]
  | some wh =>
    obtain ⟨w, ht⟩ := wh
    by_cases hnr : row.Confidence.getD 0 < CONF_THRESHOLD
    · cases hbb : row.BoundingBox with
      | none => right; exact ⟨"TypeError", by simp [mkCellItem, himg, hnr, hbb]⟩
      | some bb =>
        by_cases hlen : bb.length < 2
        · right; exact ⟨"ValueError", by simp [mkCellItem, himg, hnr, hbb, hlen]⟩
        · left; simp [mkCellItem, itemOf, cropOf, himg, hnr, hbb, hlen]
    · left; simp [mkCellItem, itemOf, cropOf, himg, hnr]

theorem mkCellItem_ok {ctx : Ctx} {row : CellRow} {c : Nat}
    {p : CellItem × Option (String × (ℤ × ℤ × ℤ × ℤ))}
    (h : mkCellItem ctx row c = .ok p) :
    p = (itemOf ctx row c, cropOf ctx row) := by
  rcases mkCellItem_cases ctx row c with hc | ⟨e, hc⟩
  · rw [hc] at h
    simp only [Except.ok.injEq] at h
    exact h.symm
  · rw [hc] at h
    exact absurd h (by simp)

theorem cropOf_some {ctx : Ctx} {row : CellRow} {cw : String × (ℤ × ℤ × ℤ × ℤ)}
    (h : cropOf ctx row = some cw) :
    ∃ bb w ht, ctx.img = some (w, ht) ∧ row.BoundingBox = some bb ∧
      2 ≤ bb.length ∧
      cw = (cropBlobName ctx.docId ctx.pageNo row.Row row.Column, cropRect bb w ht) ∧
      row.Confidence.getD 0 < CONF_THRESHOLD := by
  cases himg : ctx.img with
  | none => simp [cropOf, himg] at h
  | some wh =>
    obtain ⟨w, ht⟩ := wh
    by_cases hnr : row.Confidence.getD 0 < CONF_THRESHOLD
    · cases hbb : row.BoundingBox with
      | none => simp [cropOf, himg, hnr, hbb] at h
      | some bb =>
        by_cases hlen : bb.length < 2
        · simp [cropOf, himg, hnr, hbb, hlen] at h
        · simp only [cropOf, himg, hnr, hbb, if_pos, if_neg hlen, if_true,
            Option.some.injEq] at h
          exact ⟨bb, w, ht, rfl, rfl, by omega, by rw [← h], hnr⟩
    · simp [cropOf, himg, hnr] at h

theorem runCells_items_cons_ok {ctx : Ctx} {row : CellRow} {rest : List CellRow}
    {c : Nat} {it0 : CellItem} {cw0 : Option (String × (ℤ × ℤ × ℤ × ℤ))}
    (hmk : mkCellItem ctx row c = .ok (it0, cw0)) :
    (runCells ctx (row :: rest) c).items =
      it0 :: (runCells ctx rest
        (if row.Confidence.getD 0 < CONF_THRESHOLD then c + 1 else c)).items := by
  simp only [runCells, hmk]

theorem runCells_items_cons_err {ctx : Ctx} {row : CellRow} {rest : List CellRow}
    {c : Nat} {e : String} (hmk : mkCellItem ctx row c = .error e) :
    (runCells ctx (row :: rest) c).items = [] := by
  simp only [runCells, hmk]

theorem runCells_crops_cons_ok {ctx : Ctx} {row : CellRow} {rest : List CellRow}
    {c : Nat} {it0 : CellItem} {cw0 : Option (String × (ℤ × ℤ × ℤ × ℤ))}
    (hmk : mkCellItem ctx row c = .ok (it0, cw0)) :
    (runCells ctx (row :: rest) c).crops =
      cw0.elim (runCells ctx rest
          (if row.Confidence.getD 0 < CONF_THRESHOLD then c + 1 else c)).crops
        (fun cw => cw :: (runCells ctx rest
          (if row.Confidence.getD 0 < CONF_THRESHOLD then c + 1 else c)).crops) := by
  simp only [runCells, hmk]

theorem runCells_crops_cons_err {ctx : Ctx} {row : CellRow} {rest : List CellRow}
    {c : Nat} {e : String} (hmk : mkCellItem ctx row c = .error e) :
    (runCells ctx (row :: rest) c).crops = [] := by
  simp only [runCells, hmk]

theorem mem_runCells_items {ctx : Ctx} {item : CellItem} :
    ∀ {df : List CellRow} {c : Nat},
      item ∈ (runCells ctx df c).items →
      ∃ row ∈ df, ∃ cnt, item = itemOf ctx row cnt := by
  intro df
  induction df with
  | nil => intro c h; exact absurd h (by simp [runCells])
  | cons row rest ih =>
    intro c h
    simp only [runCells] at h
    cases hmk : mkCellItem ctx row c with
    | error e => rw [hmk] at h; exact absurd h (by simp)
    | ok p =>
      rw [hmk] at h
      simp only [List.mem_cons] at h
      rcases h with h | h
      · exact ⟨row, by simp, c, h.trans (congrArg Prod.fst (mkCellItem_ok hmk))⟩
      · obtain ⟨row2, hrow2, cnt, heq⟩ := ih h
        exact ⟨row2, by simp [hrow2], cnt, heq⟩

theorem runCells_get? {ctx : Ctx} :
    ∀ {df : List CellRow} {c : Nat} {i : Nat} {item : CellItem},
      (runCells ctx df c).items.get? i = some item →
      ∃ (h : i < df.length) (cnt : Nat), item = itemOf ctx (df.get ⟨i, h⟩) cnt := by
  intro df
  induction df with
  | nil => intro c i item h; simp [runCells] at h
  | cons row rest ih =>
    intro c i item h
    simp only [runCells] at h
    cases hmk : mkCellItem ctx row c with
    | error e => rw [hmk] at h; simp at h
    | ok p =>
      rw [hmk] at h
      cases i with
      | zero =>
        simp only [List.get?_cons_zero, Option.some.injEq] at h
        refine ⟨by simp, c, ?_⟩
        rw [← h, congrArg Prod.fst (mkCellItem_ok hmk)]
        rfl
      | succ j =>
        simp only [List.get?_cons_succ] at h
        obtain ⟨hj, cnt, heq⟩ := ih h
        exact ⟨by simpa using hj, cnt, heq⟩

theorem itemOf_confidence (ctx : Ctx) (row : CellRow) (cnt : Nat) :
    (itemOf ctx row cnt).confidence = row.Confidence.getD 0 := rfl

theorem itemOf_status (ctx : Ctx) (row : CellRow) (cnt : Nat) :
    (itemOf ctx row cnt).status =
      if row.Confidence.getD 0 < CONF_THRESHOLD then "needs_review" else "approved" := rfl

theorem itemOf_assignedTo (ctx : Ctx) (row : CellRow) (cnt : Nat) :
    (itemOf ctx row cnt).assignedTo =
      if row.Confidence.getD 0 < CONF_THRESHOLD then
        if ctx.pool = [] then none else ctx.pool.get? (cnt % ctx.pool.length)
      else none := rfl

/-- Claim C1: every cell record persisted by the classifier pass carries
status `approved` when its confidence reaches the 0.90 threshold
(`CONF_THRESHOLD`) and `needs_review` when it falls strictly below it. -/
theorem claim_C1 (ctx : Ctx) (df : List CellRow) (item : CellItem)
    (hmem : item ∈ (runCells ctx df 0).items) :
    (CONF_THRESHOLD ≤ item.confidence → item.status = "approved") ∧
    (item.confidence < CONF_THRESHOLD → item.status = "needs_review") := by
  obtain ⟨row, -, cnt, rfl⟩ := mem_runCells_items hmem
  rw [itemOf_confidence, itemOf_status]
  constructor
  · intro hge
    rw [if_neg (not_lt.mpr hge)]
  · intro hlt
    rw [if_pos hlt]

/-- Witness for claim C1: a cell with confidence 1.0 is persisted as
`approved`. -/
theorem claim_C1_witness : (itemOf wctx1 wrow1 0).status = "approved" :=
  (claim_C1 wctx1 [wrow1] (itemOf wctx1 wrow1 0)
    (by with_unfolding_all decide)).1 (by with_unfolding_all decide)

/-- Claim C10: a cell row lacking a `Confidence` value is classified with
confidence 0.0 (`row.get("Confidence", 0.0)`), so it is always persisted as
`needs_review`. -/
theorem claim_C10 (ctx : Ctx) (df : List CellRow) (i : Nat)
    (h : i < df.length) (hc : (df.get ⟨i, h⟩).Confidence = none)
    (h2 : i < (runCells ctx df 0).items.length) :
    ((runCells ctx df 0).items.get ⟨i, h2⟩).status = "needs_review" ∧
    ((runCells ctx df 0).items.get ⟨i, h2⟩).confidence = 0 := by
  obtain ⟨h3, cnt, heq⟩ := runCells_get? (List.get?_eq_get h2)
  have hrow : (df.get ⟨i, h3⟩) = df.get ⟨i, h⟩ := rfl
  rw [heq, hrow, itemOf_status, itemOf_confidence, hc]
  have hlt : (none : Option ℚ).getD 0 < CONF_THRESHOLD := by
    norm_num [CONF_THRESHOLD, Option.getD]
  exact ⟨by rw [if_pos hlt], rfl⟩

/-- Witness for claim C10: a single row with no confidence value is
persisted as `needs_review`. -/
theorem claim_C10_witness :
    ((runCells wctx10 [wrow10] 0).items.get
      ⟨0, by with_unfolding_all decide⟩).status = "needs_review" :=
  (claim_C10 wctx10 [wrow10] 0 (by decide) (by with_unfolding_all decide)
    (by with_unfolding_all decide)).1

/-- Claim C4 counterexample: with an empty reviewer pool, a low-confidence
cell (confidence 0.5) is persisted with status `needs_review` and
`assignedTo = None`, refuting the unconditional "non-null iff
needs_review". -/
theorem claim_C4_counterexample :
    ((runCells ctx4ce [row4ce] 0).items.map (fun it => (it.status, it.assignedTo))) =
      [("needs_review", none)] := by
  with_unfolding_all decide

/-- Claim C4 (amended): an `approved` cell never carries an assignee, and
when the reviewer pool is non-empty a persisted cell's `assignedTo` is
non-null exactly when its status is `needs_review`.  (With an empty pool
every `assignedTo` is null; see the counterexample.) -/
theorem claim_C4 (ctx : Ctx) (df : List CellRow) :
    (∀ item ∈ (runCells ctx df 0).items,
        item.status = "approved" → item.assignedTo = none) ∧
    (ctx.pool ≠ [] →
      ∀ item ∈ (runCells ctx df 0).items,
        (item.assignedTo ≠ none ↔ item.status = "needs_review")) := by
  constructor
  · intro item hmem hst
    obtain ⟨row, -, cnt, rfl⟩ := mem_runCells_items hmem
    rw [itemOf_status] at hst
    rw [itemOf_assignedTo]
    by_cases hnr : row.Confidence.getD 0 < CONF_THRESHOLD
    · rw [if_pos hnr] at hst
      exact absurd hst (by decide)
    · rw [if_neg hnr]
  · intro hpool item hmem
    obtain ⟨row, -, cnt, rfl⟩ := mem_runCells_items hmem
    rw [itemOf_assignedTo, itemOf_status]
    by_cases hnr : row.Confidence.getD 0 < CONF_THRESHOLD
    · rw [if_pos hnr, if_pos hnr, if_neg hpool]
      constructor
      · intro _; rfl
      · intro _ hnone
        rw [List.get?_eq_none] at hnone
        have := Nat.mod_lt cnt (List.length_pos.mpr hpool)
        omega
    · rw [if_neg hnr, if_neg hnr]
      constructor
      · intro hne; exact absurd rfl hne
      · intro hst; exact absurd hst (by decide)

/-- Witness for claim C4 (amended): with pool `["A"]`, a low-confidence
cell receives a non-null assignee. -/
theorem claim_C4_witness : (itemOf wctx4 wrow4 0).assignedTo ≠ none :=
  ((claim_C4 wctx4 [wrow4]).2 (by decide) (itemOf wctx4 wrow4 0)
    (by with_unfolding_all decide)).mpr (by with_unfolding_all decide)

theorem runCells_review_assignments (ctx : Ctx) (hpool : ctx.pool ≠ []) :
    ∀ (df : List CellRow) (c : Nat),
      (((runCells ctx df c).items.filter
          (fun it => it.status = "needs_review")).map (fun it => it.assignedTo)) =
        (List.range' c (((runCells ctx df c).items.filter
            (fun it => it.status = "needs_review")).length)).map
          (fun k => ctx.pool.get? (k % ctx.pool.length)) := by
  intro df
  induction df with
  | nil => intro c; rfl
  | cons row rest ih =>
    intro c
    rcases mkCellItem_cases ctx row c with hmk | ⟨e, hmk⟩
    · rw [runCells_items_cons_ok hmk]
      by_cases hnr : row.Confidence.getD 0 < CONF_THRESHOLD
      · have hst : (itemOf ctx row c).status = "needs_review" := by
          rw [itemOf_status, if_pos hnr]
        rw [if_pos hnr]
        rw [List.filter_cons, if_pos (by simp [hst])]
        rw [List.map_cons, List.length_cons, List.range'_succ, List.map_cons]
        congr 1
        · rw [itemOf_assignedTo, if_pos hnr, if_neg hpool]
        · exact ih (c + 1)
      · have hst : (itemOf ctx row c).status = "approved" := by
          rw [itemOf_status, if_neg hnr]
        rw [if_neg hnr]
        rw [List.filter_cons, if_neg (by simp [hst])]
        exact ih c
    · rw [runCells_items_cons_err hmk]
      rfl

/-- Claim C9: within one table pass the reviewer counter starts at 0 and
advances only on `needs_review` cells, so the k-th flagged cell (in
encounter order) is assigned `pool[k mod len(pool)]`; the counter is local
to the `runCells` call, so it restarts at 0 for each table. -/
theorem claim_C9 (ctx : Ctx) (df : List CellRow) (hpool : ctx.pool ≠ []) :
    (((runCells ctx df 0).items.filter
        (fun it => it.status = "needs_review")).map (fun it => it.assignedTo)) =
      (List.range (((runCells ctx df 0).items.filter
          (fun it => it.status = "needs_review")).length)).map
        (fun k => ctx.pool.get? (k % ctx.pool.length)) := by
  rw [List.range_eq_range']
  exact runCells_review_assignments ctx hpool df 0

/-- Witness for claim C9: pool `["A","B"]` and three consecutive
`needs_review` cells yield assignments `A, B, A`. -/
theorem claim_C9_witness :
    (((runCells wctx9 wdf9 0).items.filter
        (fun it => it.status = "needs_review")).map (fun it => it.assignedTo)) =
      [some "A", some "B", some "A"] := by
  have h := claim_C9 wctx9 wdf9 (by decide)
  exact h.trans (by with_unfolding_all decide)

/-! ### Lemmas about the `table_cells` store (upsert semantics) -/

theorem ids_upsert (s : List CellItem) (a : CellItem) :
    (upsertItem s a).map (fun it => it.id) =
      if a.id ∈ s.map (fun it => it.id) then s.map (fun it => it.id)
      else s.map (fun it => it.id) ++ [a.id] := by
  unfold upsertItem
  by_cases hmem : a.id ∈ s.map (fun it => it.id)
  · rw [if_pos hmem]
    have hany : s.any (fun x => x.id = a.id) = true := by
      rw [List.any_eq_true]
      obtain ⟨x, hx, hxa⟩ := List.mem_map.mp hmem
      exact ⟨x, hx, by simp [hxa]⟩
    rw [if_pos hany, List.map_map]
    apply List.map_congr_left
    intro x _
    show (if x.id = a.id then a else x).id = x.id
    by_cases hid : x.id = a.id
    · rw [if_pos hid, hid]
    · rw [if_neg hid]
  · rw [if_neg hmem]
    have hany : ¬(s.any (fun x => x.id = a.id) = true) := by
      rw [List.any_eq_true]
      rintro ⟨x, hx, hxa⟩
      exact hmem (List.mem_map.mpr ⟨x, hx, by simpa using hxa⟩)
    rw [if_neg hany, List.map_append]
    rfl

theorem mem_ids_upsert {s : List CellItem} {b : String} (a : CellItem)
    (h : b ∈ s.map (fun it => it.id)) :
    b ∈ (upsertItem s a).map (fun it => it.id) := by
  rw [ids_upsert]
  by_cases hm : a.id ∈ s.map (fun it => it.id)
  · rw [if_pos hm]; exact h
  · rw [if_neg hm]; exact List.mem_append_left _ h

theorem self_mem_ids_upsert (s : List CellItem) (a : CellItem) :
    a.id ∈ (upsertItem s a).map (fun it => it.id) := by
  rw [ids_upsert]
  by_cases hm : a.id ∈ s.map (fun it => it.id)
  · rw [if_pos hm]; exact hm
  · rw [if_neg hm]; exact List.mem_append_right _ (by simp)

theorem mem_ids_foldl {b : String} :
    ∀ (L : List CellItem) (s : List CellItem),
      b ∈ s.map (fun it => it.id) →
      b ∈ (L.foldl upsertItem s).map (fun it => it.id) := by
  intro L
  induction L with
  | nil => intro s h; exact h
  | cons a rest ih => intro s h; exact ih _ (mem_ids_upsert a h)

theorem mem_item_ids_foldl :
    ∀ (L : List CellItem) (s : List CellItem) (a : CellItem), a ∈ L →
      a.id ∈ (L.foldl upsertItem s).map (fun it => it.id) := by
  intro L
  induction L with
  | nil => intro s a h; exact absurd h (by simp)
  | cons a0 rest ih =>
    intro s a h
    rcases List.mem_cons.mp h with rfl | h
    · exact mem_ids_foldl rest _ (self_mem_ids_upsert s a)
    · exact ih _ a h

theorem ids_foldl_of_mem :
    ∀ (L : List CellItem) (s : List CellItem),
      (∀ a ∈ L, a.id ∈ s.map (fun it => it.id)) →
      (L.foldl upsertItem s).map (fun it => it.id) = s.map (fun it => it.id) := by
  intro L
  induction L with
  | nil => intro s _; rfl
  | cons a rest ih =>
    intro s hall
    have h1 : (upsertItem s a).map (fun it => it.id) = s.map (fun it => it.id) := by
      rw [ids_upsert, if_pos (hall a (by simp))]
    rw [List.foldl_cons, ih (upsertItem s a) (fun b hb => by
      rw [h1]; exact hall b (by simp [hb])), h1]

theorem process_table_cells_store (ctx : Ctx) (docCount : Nat) (df : List CellRow)
    (store : List CellItem) (doc : DocState) :
    (process_table_cells ctx docCount df store doc).store =
      (runCells ctx df 0).items.foldl upsertItem store := by
  cases herr : (runCells ctx df 0).err with
  | none => simp [process_table_cells, herr]
  | some e => simp [process_table_cells, herr]

/-- Claim C3: the persisted cell id is the pure function `cellId` of
`(documentId, pageNumber, tableId, row, column)` of the record, and
re-running the same table pass over the store it just produced leaves the
list of stored ids unchanged — the upserts overwrite instead of creating
duplicates. -/
theorem claim_C3 (ctx : Ctx) (docCount : Nat) (df : List CellRow) :
    (∀ item ∈ (runCells ctx df 0).items,
        item.id = cellId item.documentId item.pageNumber item.tableId
          item.row item.column) ∧
    (∀ (store : List CellItem) (doc doc2 : DocState),
        ((process_table_cells ctx docCount df
            (process_table_cells ctx docCount df store doc).store doc2).store.map
          (fun it => it.id)) =
        ((process_table_cells ctx docCount df store doc).store.map
          (fun it => it.id))) := by
  constructor
  · intro item hmem
    obtain ⟨row, -, cnt, rfl⟩ := mem_runCells_items hmem
    rfl
  · intro store doc doc2
    rw [process_table_cells_store, process_table_cells_store]
    apply ids_foldl_of_mem
    intro a ha
    exact mem_item_ids_foldl _ _ a ha

/-- Witness for claim C3: re-processing a concrete two-cell table leaves
the stored id list unchanged, and a persisted record's id is `cellId` of
its own identifying fields. -/
theorem claim_C3_witness :
    ((process_table_cells wctx3 0 wdf3
        (process_table_cells wctx3 0 wdf3 [] initialDoc).store initialDoc).store.map
      (fun it => it.id)) =
    ((process_table_cells wctx3 0 wdf3 [] initialDoc).store.map
      (fun it => it.id)) ∧
    (itemOf wctx3 (sampleRow 1 0 0 "a" (some 1) none) 0).id = cellId "doc" 1 1 0 0 := by
  constructor
  · exact (claim_C3 wctx3 0 wdf3).2 [] initialDoc initialDoc
  · have h := (claim_C3 wctx3 0 wdf3).1
      (itemOf wctx3 (sampleRow 1 0 0 "a" (some 1) none) 0)
      (by with_unfolding_all decide)
    exact h.trans (by with_unfolding_all decide)

/-! ### Lemmas about the crop geometry -/

theorem mem_runCells_crops {ctx : Ctx} {entry : String × (ℤ × ℤ × ℤ × ℤ)} :
    ∀ {df : List CellRow} {c : Nat},
      entry ∈ (runCells ctx df c).crops →
      ∃ row ∈ df, cropOf ctx row = some entry := by
  intro df
  induction df with
  | nil => intro c h; exact absurd h (by simp [runCells])
  | cons row rest ih =>
    intro c h
    rcases mkCellItem_cases ctx row c with hmk | ⟨e, hmk⟩
    · rw [runCells_crops_cons_ok hmk] at h
      cases hc : cropOf ctx row with
      | none =>
        rw [hc] at h
        obtain ⟨row2, hrow2, hcw⟩ := ih h
        exact ⟨row2, by simp [hrow2], hcw⟩
      | some cw =>
        rw [hc] at h
        rcases List.mem_cons.mp h with rfl | h
        · exact ⟨row, by simp, hc⟩
        · obtain ⟨row2, hrow2, hcw⟩ := ih h
          exact ⟨row2, by simp [hrow2], hcw⟩
    · rw [runCells_crops_cons_err hmk] at h
      exact absurd h (by simp)

theorem mem_everyOther : ∀ (l : List ℚ) (q : ℚ), q ∈ everyOther l → q ∈ l
  | [], _, h => by simp [everyOther] at h
  | [a], q, h => by simpa [everyOther] using h
  | a :: b :: t, q, h => by
    rw [everyOther] at h
    rcases List.mem_cons.mp h with rfl | h
    · simp
    · have := mem_everyOther t q h
      simp [this]

theorem foldl_min_bounds {lo hi : ℚ} :
    ∀ (t : List ℚ) (a : ℚ), lo ≤ a → a ≤ hi → (∀ x ∈ t, lo ≤ x ∧ x ≤ hi) →
      lo ≤ t.foldl min a ∧ t.foldl min a ≤ hi := by
  intro t
  induction t with
  | nil => intro a h1 h2 _; exact ⟨h1, h2⟩
  | cons x rest ih =>
    intro a h1 h2 hall
    rw [List.foldl_cons]
    exact ih (min a x) (le_min h1 (hall x (by simp)).1)
      ((min_le_left a x).trans h2) (fun y hy => hall y (by simp [hy]))

theorem foldl_max_bounds {lo hi : ℚ} :
    ∀ (t : List ℚ) (a : ℚ), lo ≤ a → a ≤ hi → (∀ x ∈ t, lo ≤ x ∧ x ≤ hi) →
      lo ≤ t.foldl max a ∧ t.foldl max a ≤ hi := by
  intro t
  induction t with
  | nil => intro a h1 h2 _; exact ⟨h1, h2⟩
  | cons x rest ih =>
    intro a h1 h2 hall
    rw [List.foldl_cons]
    exact ih (max a x) (h1.trans (le_max_left a x))
      (max_le h2 (hall x (by simp)).2) (fun y hy => hall y (by simp [hy]))

theorem listMin_bounds01 (l : List ℚ) (h : ∀ x ∈ l, 0 ≤ x ∧ x ≤ 1) :
    0 ≤ listMin l ∧ listMin l ≤ 1 := by
  cases l with
  | nil => exact ⟨le_refl 0, by norm_num [listMin]⟩
  | cons a t =>
    have ha := h a (by simp)
    exact foldl_min_bounds t a ha.1 ha.2 (fun x hx => h x (by simp [hx]))

theorem listMax_bounds01 (l : List ℚ) (h : ∀ x ∈ l, 0 ≤ x ∧ x ≤ 1) :
    0 ≤ listMax l ∧ listMax l ≤ 1 := by
  cases l with
  | nil => exact ⟨le_refl 0, by norm_num [listMax]⟩
  | cons a t =>
    have ha := h a (by simp)
    exact foldl_max_bounds t a ha.1 ha.2 (fun x hx => h x (by simp [hx]))

theorem pyInt_bounds {q : ℚ} {n : ℕ} (h0 : 0 ≤ q) (h1 : q ≤ (n : ℚ)) :
    0 ≤ pyInt q ∧ pyInt q ≤ (n : ℤ) := by
  unfold pyInt
  rw [if_pos h0]
  have hfl : q.floor = ⌊q⌋ := (Rat.floor_def' q).trans Rat.floor_def.symm
  rw [hfl]
  constructor
  · exact Int.floor_nonneg.mpr h0
  · calc ⌊q⌋ ≤ ⌊(n : ℚ)⌋ := Int.floor_le_floor h1
      _ = (n : ℤ) := Int.floor_natCast n

theorem scaled_bounds {m : ℚ} {n : ℕ} (h0 : 0 ≤ m) (h1 : m ≤ 1) :
    0 ≤ m * (n : ℚ) ∧ m * (n : ℚ) ≤ (n : ℚ) := by
  constructor
  · exact mul_nonneg h0 (Nat.cast_nonneg n)
  · calc m * (n : ℚ) ≤ 1 * (n : ℚ) :=
        mul_le_mul_of_nonneg_right h1 (Nat.cast_nonneg n)
      _ = (n : ℚ) := one_mul _

/-- Claim C5 (amended): every crop upload performed by the cell loop uses
exactly the unclamped rectangle `cropRect` (min/max of the even/odd-indexed
bounding-box values scaled by the image size, expanded by the 2-pixel
margin); for normalized coordinates in `[0,1]` that rectangle lies within
`[-2, w+2] × [-2, h+2]` — it is NOT clamped to `[0,w] × [0,h]` (see the
counterexample). -/
theorem claim_C5 :
    (∀ (ctx : Ctx) (df : List CellRow) (c : Nat)
        (entry : String × (ℤ × ℤ × ℤ × ℤ)),
        entry ∈ (runCells ctx df c).crops →
        ∃ row ∈ df, ∃ bb w ht, ctx.img = some (w, ht) ∧
          row.BoundingBox = some bb ∧ 2 ≤ bb.length ∧
          entry.2 = cropRect bb w ht ∧
          row.Confidence.getD 0 < CONF_THRESHOLD) ∧
    (∀ (bb : List ℚ) (w ht : Nat), (∀ q ∈ bb, 0 ≤ q ∧ q ≤ 1) →
        -2 ≤ (cropRect bb w ht).1 ∧ -2 ≤ (cropRect bb w ht).2.1 ∧
        (cropRect bb w ht).2.2.1 ≤ (w : ℤ) + 2 ∧
        (cropRect bb w ht).2.2.2 ≤ (ht : ℤ) + 2) := by
  constructor
  · intro ctx df c entry hmem
    obtain ⟨row, hrow, hcw⟩ := mem_runCells_crops hmem
    obtain ⟨bb, w, ht, himg, hbb, hlen, hcw2, hnr⟩ := cropOf_some hcw
    exact ⟨row, hrow, bb, w, ht, himg, hbb, hlen, by rw [hcw2], hnr⟩
  · intro bb w ht hq
    have hxs : ∀ x ∈ everyOther bb, 0 ≤ x ∧ x ≤ 1 :=
      fun x hx => hq x (mem_everyOther bb x hx)
    have hys : ∀ x ∈ everyOther (bb.drop 1), 0 ≤ x ∧ x ≤ 1 :=
      fun x hx => hq x (List.mem_of_mem_drop (mem_everyOther _ x hx))
    have hminx := listMin_bounds01 _ hxs
    have hmaxx := listMax_bounds01 _ hxs
    have hminy := listMin_bounds01 _ hys
    have hmaxy := listMax_bounds01 _ hys
    have h1 := scaled_bounds hminx.1 hminx.2 (n := w)
    have h2 := scaled_bounds hmaxx.1 hmaxx.2 (n := w)
    have h3 := scaled_bounds hminy.1 hminy.2 (n := ht)
    have h4 := scaled_bounds hmaxy.1 hmaxy.2 (n := ht)
    have p1 := pyInt_bounds h1.1 h1.2
    have p2 := pyInt_bounds h2.1 h2.2
    have p3 := pyInt_bounds h3.1 h3.2
    have p4 := pyInt_bounds h4.1 h4.2
    unfold cropRect
    refine ⟨?_, ?_, ?_, ?_⟩ <;> simp only [] <;> omega

/-- Claim C5 counterexample: a full-page polygon (normalized corners of the
unit square) on a 100×100 page yields the crop rectangle
`(-2, -2, 102, 102)`, which is passed to `crop` unclamped — its left/top
are below 0 and its right/bottom exceed the image size, refuting the
claimed clamping to `[0, imageWidth] × [0, imageHeight]`. -/
theorem claim_C5_counterexample :
    (runCells ctx5ce [row5ce] 0).crops =
      [(cropBlobName "d" 1 2 3, (-2, -2, 102, 102))] ∧
    ((-2 : ℤ) < 0 ∧ (100 : ℤ) < 102) := by
  with_unfolding_all decide

/-- Witness for claim C5 (amended): the full-page polygon's rectangle stays
within the 2-pixel margin band around a 100×100 image. -/
theorem claim_C5_witness :
    -2 ≤ (cropRect wbb5 100 100).1 ∧ -2 ≤ (cropRect wbb5 100 100).2.1 ∧
    (cropRect wbb5 100 100).2.2.1 ≤ ((100 : ℕ) : ℤ) + 2 ∧
    (cropRect wbb5 100 100).2.2.2 ≤ ((100 : ℕ) : ℤ) + 2 :=
  (claim_C5).2 wbb5 100 100 (by with_unfolding_all decide)

/-! ### Document-level status -/

theorem finalizeDoc_status (res : List CellItem × DocState × Option String) :
    (finalizeDoc res).2.status = "ready_for_review" ∨
    (finalizeDoc res).2.status = "error" := by
  rcases res with ⟨s, d, _ | e⟩
  · left; rfl
  · right; rfl

/-- Claim C2 (amended): inside `process_table_cells` (when the cell loop
raised no exception) the document record is indeed given status
`ready_for_export` iff that one table's `approvedCells` equals its
`totalCells` —  with `totalCells`, `approvedCells` and
`pendingCells = totalCells - approvedCells` reflecting only that table —
but `process_document` then finishes every successfully processed document
by unconditionally overwriting the status with `ready_for_review` (or
`error` when an exception surfaced), so the final status is never
`ready_for_export`.  See the counterexample for the original claim. -/
theorem claim_C2 :
    (∀ (ctx : Ctx) (docCount : Nat) (df : List CellRow) (store : List CellItem)
        (doc : DocState),
        (process_table_cells ctx docCount df store doc).err = none →
        ((process_table_cells ctx docCount df store doc).doc.status =
            (if (process_table_cells ctx docCount df store doc).approved =
                (process_table_cells ctx docCount df store doc).total
              then "ready_for_export" else "ready_for_review") ∧
          (process_table_cells ctx docCount df store doc).doc.totalCells =
            some (process_table_cells ctx docCount df store doc).total ∧
          (process_table_cells ctx docCount df store doc).doc.approvedCells =
            some (process_table_cells ctx docCount df store doc).approved ∧
          (process_table_cells ctx docCount df store doc).doc.pendingCells =
            some ((process_table_cells ctx docCount df store doc).total -
              (process_table_cells ctx docCount df store doc).approved))) ∧
    (∀ (pc : PipeCtx) (pageResults : List AnalysisResult) (store : List CellItem)
        (doc : DocState),
        (process_document pc pageResults store doc).2.status = "ready_for_review" ∨
        (process_document pc pageResults store doc).2.status = "error") := by
  constructor
  · intro ctx docCount df store doc herr2
    cases herr : (runCells ctx df 0).err with
    | some e => simp [process_table_cells, herr] at herr2
    | none => simp [process_table_cells, herr]
  · intro pc pageResults store doc
    exact finalizeDoc_status _

/-- Claim C2 counterexample: one page, two tables, every cell confidence
1.0 (all three persisted cells approved, so `approvedCells == totalCells`
over the whole document), yet the final document status is
`ready_for_review`, not `ready_for_export` — and the persisted counters
reflect only the last table (2 cells), not the document (3 cells). -/
theorem claim_C2_counterexample :
    (process_document pc2 [res2] [] initialDoc).2.status = "ready_for_review" ∧
    (process_document pc2 [res2] [] initialDoc).1.length = 3 ∧
    ((process_document pc2 [res2] [] initialDoc).1.filter
      (fun it => it.status = "approved")).length = 3 ∧
    (process_document pc2 [res2] [] initialDoc).2.totalCells = some 2 ∧
    (process_document pc2 [res2] [] initialDoc).2.approvedCells = some 2 ∧
    (process_document pc2 [res2] [] initialDoc).2.pendingCells = some 0 := by
  with_unfolding_all decide

/-- Witness for claim C2 (amended): a one-cell fully approved table makes
`process_table_cells` set `ready_for_export` transiently, and a document
run ends in `ready_for_review`. -/
theorem claim_C2_witness :
    (process_table_cells wctx2 0 wdf2 [] initialDoc).doc.status = "ready_for_export" ∧
    (process_document pc2 [] [] initialDoc).2.status = "ready_for_review" := by
  constructor
  · have h := (claim_C2).1 wctx2 0 wdf2 [] initialDoc (by with_unfolding_all decide)
    exact h.1.trans (by with_unfolding_all decide)
  · rcases (claim_C2).2 pc2 [] [] initialDoc with h | h
    · exact h
    · exact absurd h (by with_unfolding_all decide)

/-! ### Pair-extraction lemmas -/

theorem elim_eq_map {α β : Type} (o : Option α) (g : α → β) :
    o.elim none (fun x => some (g x)) = o.map g := by
  cases o <;> rfl

theorem pairStep_eq (acc : Option Nat × Option Nat) (h0 : CellRow) :
    (if containsCI h0.Content "pd no" || containsCI h0.Content "pd" then
        (some h0.Column, acc.2)
      else if containsCI h0.Content "seq" then (acc.1, some h0.Column)
      else acc) =
    ((if containsCI h0.Content "pd no" || containsCI h0.Content "pd" then
        some h0.Column else acc.1),
     (if !(containsCI h0.Content "pd no" || containsCI h0.Content "pd") &&
         containsCI h0.Content "seq" then some h0.Column else acc.2)) := by
  by_cases hpd : (containsCI h0.Content "pd no" || containsCI h0.Content "pd") = true
  · rw [if_pos hpd, if_pos hpd, hpd]
    simp
  · have hb : (containsCI h0.Content "pd no" || containsCI h0.Content "pd") = false :=
      Bool.eq_false_iff.mpr hpd
    rw [if_neg hpd, if_neg hpd, hb]
    by_cases hseq : containsCI h0.Content "seq" = true
    · rw [if_pos hseq, hseq]
      simp
    · have hsb : containsCI h0.Content "seq" = false := Bool.eq_false_iff.mpr hseq
      rw [if_neg hseq, hsb]
      simp

theorem headerCols_split :
    ∀ (headers : List CellRow) (acc : Option Nat × Option Nat),
      headers.foldl
        (fun acc h =>
          if containsCI h.Content "pd no" || containsCI h.Content "pd" then
            (some h.Column, acc.2)
          else if containsCI h.Content "seq" then (acc.1, some h.Column)
          else acc) acc =
      (headers.foldl (fun a1 h =>
          if containsCI h.Content "pd no" || containsCI h.Content "pd" then
            some h.Column else a1) acc.1,
       headers.foldl (fun a2 h =>
          if !(containsCI h.Content "pd no" || containsCI h.Content "pd") &&
             containsCI h.Content "seq" then some h.Column else a2) acc.2) := by
  intro headers
  induction headers with
  | nil => intro acc; rfl
  | cons h0 rest ih =>
    intro acc
    rw [List.foldl_cons, List.foldl_cons, List.foldl_cons, pairStep_eq, ih]

theorem headerCols_cols (headers : List CellRow) :
    headerCols headers =
      (((headers.filter (fun hc =>
          containsCI hc.Content "pd no" || containsCI hc.Content "pd")).getLast?).map
        (fun hc => hc.Column),
       ((headers.filter (fun hc =>
          !(containsCI hc.Content "pd no" || containsCI hc.Content "pd") &&
          containsCI hc.Content "seq")).getLast?).map (fun hc => hc.Column)) := by
  unfold headerCols
  rw [headerCols_split]
  congr 1
  · rw [foldl_last_update
      (fun hc => containsCI hc.Content "pd no" || containsCI hc.Content "pd")
      (fun hc => hc.Column) headers none, elim_eq_map]
  · rw [foldl_last_update
      (fun hc => !(containsCI hc.Content "pd no" || containsCI hc.Content "pd") &&
        containsCI hc.Content "seq")
      (fun hc => hc.Column) headers none, elim_eq_map]

theorem find_fold_eq (dataRows : List CellRow) (pdCol seqCol : Nat) :
    ∀ (l : List Nat) (acc : List Pair),
      l.foldl
        (fun pairs rowIdx =>
          if firstCellValue dataRows rowIdx pdCol ≠ "" ∨
             firstCellValue dataRows rowIdx seqCol ≠ "" then
            pairs ++
              [{ FULL_PD := firstCellValue dataRows rowIdx pdCol
                 SEQUENCE_NUMBER := firstCellValue dataRows rowIdx seqCol
                 FULL_PD_cleaned := cleanedOf (firstCellValue dataRows rowIdx pdCol)
                 SEQUENCE_NUMBER_cleaned := cleanedOf (firstCellValue dataRows rowIdx seqCol)
                 ED_CODE := 35023 }]
          else pairs) acc =
      acc ++ l.filterMap
        (fun rowIdx =>
          if firstCellValue dataRows rowIdx pdCol ≠ "" ∨
             firstCellValue dataRows rowIdx seqCol ≠ "" then
            some { FULL_PD := firstCellValue dataRows rowIdx pdCol
                   SEQUENCE_NUMBER := firstCellValue dataRows rowIdx seqCol
                   FULL_PD_cleaned := cleanedOf (firstCellValue dataRows rowIdx pdCol)
                   SEQUENCE_NUMBER_cleaned :=
                     cleanedOf (firstCellValue dataRows rowIdx seqCol)
                   ED_CODE := 35023 }
          else none) := by
  intro l
  induction l with
  | nil => intro acc; simp
  | cons a rest ih =>
    intro acc
    rw [List.foldl_cons]
    by_cases hc : firstCellValue dataRows a pdCol ≠ "" ∨
        firstCellValue dataRows a seqCol ≠ ""
    · rw [if_pos hc, ih]
      simp [List.filterMap_cons, hc]
    · rw [if_neg hc, ih]
      simp [List.filterMap_cons, hc]

/-- Claim C8 (amended): the header scan records as PD column the column of
the LAST row-0 cell whose lowercased content contains "pd no" or "pd", and
as sequence column the last row-0 cell that does NOT contain "pd" but
contains "seq" (the source's `elif`: a header containing both counts only
as PD); if either column is missing no pairs are emitted (and no error is
raised — the function is total); if both are found, one pair per distinct
data row (in first-occurrence order) is emitted exactly when the first
cell value in the PD column or the first in the sequence column (empty
string if absent, as `firstCellValue` = first matching cell by `find?`) is
non-empty.  See the counterexample for the original claim. -/
theorem claim_C8 (df : List CellRow) :
    (headerCols (df.filter (fun r => r.Row = 0)) =
      ((((df.filter (fun r => r.Row = 0)).filter (fun hc =>
          containsCI hc.Content "pd no" || containsCI hc.Content "pd")).getLast?).map
        (fun hc => hc.Column),
       (((df.filter (fun r => r.Row = 0)).filter (fun hc =>
          !(containsCI hc.Content "pd no" || containsCI hc.Content "pd") &&
          containsCI hc.Content "seq")).getLast?).map (fun hc => hc.Column))) ∧
    (((headerCols (df.filter (fun r => r.Row = 0))).1 = none ∨
      (headerCols (df.filter (fun r => r.Row = 0))).2 = none) →
      find_pd_seq_pairs df = []) ∧
    (∀ pdCol seqCol : Nat,
      headerCols (df.filter (fun r => r.Row = 0)) = (some pdCol, some seqCol) →
      find_pd_seq_pairs df =
        (firstUnique ((df.filter (fun r => 0 < r.Row)).map (fun r => r.Row))).filterMap
          (fun rowIdx =>
            if firstCellValue (df.filter (fun r => 0 < r.Row)) rowIdx pdCol ≠ "" ∨
               firstCellValue (df.filter (fun r => 0 < r.Row)) rowIdx seqCol ≠ "" then
              some { FULL_PD := firstCellValue (df.filter (fun r => 0 < r.Row)) rowIdx pdCol
                     SEQUENCE_NUMBER :=
                       firstCellValue (df.filter (fun r => 0 < r.Row)) rowIdx seqCol
                     FULL_PD_cleaned :=
                       cleanedOf (firstCellValue (df.filter (fun r => 0 < r.Row)) rowIdx pdCol)
                     SEQUENCE_NUMBER_cleaned :=
                       cleanedOf (firstCellValue (df.filter (fun r => 0 < r.Row)) rowIdx seqCol)
                     ED_CODE := 35023 }
            else none)) ∧
    (∀ (dataRows : List CellRow) (rowIdx col : Nat),
      firstCellValue dataRows rowIdx col =
        ((dataRows.find? (fun r => r.Row = rowIdx ∧ r.Column = col)).map
          (fun r => r.Content)).getD "") := by
  refine ⟨headerCols_cols _, ?_, ?_, ?_⟩
  · intro hnone
    unfold find_pd_seq_pairs
    by_cases hemp : df.isEmpty = true
    · rw [if_pos hemp]
    · rw [if_neg hemp]
      rcases hhc : headerCols (df.filter (fun r => r.Row = 0)) with ⟨o1, o2⟩
      rw [hhc] at hnone
      rcases hnone with h1 | h2
      · simp only [] at h1
        subst h1
        cases o2 <;> rfl
      · simp only [] at h2
        subst h2
        cases o1 <;> rfl
  · intro pdCol seqCol hcols
    unfold find_pd_seq_pairs
    by_cases hemp : df.isEmpty = true
    · exfalso
      have hdf : df = [] := List.isEmpty_iff.mp hemp
      rw [hdf] at hcols
      simp [headerCols] at hcols
    · rw [if_neg hemp, hcols]
      exact (find_fold_eq (df.filter (fun r => 0 < r.Row)) pdCol seqCol
        (firstUnique ((df.filter (fun r => 0 < r.Row)).map (fun r => r.Row))) []).trans
        (List.nil_append _)
  · intro dataRows rowIdx col
    unfold firstCellValue
    rw [head?_filter]
    cases dataRows.find? (fun r => r.Row = rowIdx ∧ r.Column = col) <;> rfl

/-- Claim C8 counterexample: a table whose single header cell "PD Seq"
contains both "pd" and "seq" (case-insensitively) and whose data row holds
the non-empty value "123" in that column; the claim says the "seq" header
records the sequence column and a pair is emitted, but the source's `elif`
records the cell only as the PD column, so no pairs are emitted. -/
theorem claim_C8_counterexample :
    containsCI "PD Seq" "seq" = true ∧ containsCI "PD Seq" "pd" = true ∧
    (ce8df.map (fun r => (r.Row, r.Column, r.Content))) =
      [(0, 0, "PD Seq"), (1, 0, "123")] ∧
    find_pd_seq_pairs ce8df = [] := by
  with_unfolding_all decide

/-- Witness for claim C8 (amended): the spec §8 example — header row
`["PD No.", "Seq."]`, data row `["12a3", "45"]` — emits exactly one pair
with the digits-only cleaned projections. -/
theorem claim_C8_witness :
    (find_pd_seq_pairs wdf8).map
      (fun p => (p.FULL_PD, p.SEQUENCE_NUMBER, p.FULL_PD_cleaned,
        p.SEQUENCE_NUMBER_cleaned, p.ED_CODE)) =
      [("12a3", "45", "123", "45", 35023)] := by
  have h := (claim_C8 wdf8).2.2.1 0 1 (by with_unfolding_all decide)
  rw [h]
  with_unfolding_all decide

end ConsOCR
